import Mathlib

/-!
Shallow embedding of the orbitmap gravity simulator (src/main.py).

Modelling conventions:
  - Python floats are modelled as real numbers.
  - Python object identity inside the global `planets` list is modelled
    positionally: a planet is identified by its index in the list (no planet
    object is ever aliased twice in the list by the program).
  - The slice `planets[-2:]` is modelled by the index list `lastTwoIdx n`,
    the indices kept by dropping all but the last two.
  - In-place mutation of a planet is modelled by `List.set` at its index.
  - The merge loop carries a ghost `events` log recording each resolved
    pair as (survivor index, merged index); the log has no influence on
    the simulated state and only makes resolutions observable to theorems.
-/

namespace Orbitmap

/- Module-level constants of src/main.py. -/

def WIDTH : ℝ := 900

def HEIGHT : ℝ := 600

noncomputable def WIDTHD2 : ℝ := WIDTH / 2

noncomputable def HEIGHTD2 : ℝ := HEIGHT / 2

def SCALE : ℝ := 0.01

def MX : ℕ := 100

def MY : ℕ := 100

def STATICSUN : Bool := false

def W : ℕ := 2 * MX + 1

def H : ℕ := 2 * MY + 1

def DENSITY : ℝ := 0.001

def GRAVITYSTRENGTH : ℝ := 1e4

def IDX : ℝ := 200

def IVX : ℝ := 15

def IMM : ℝ := 500

/-- Class `State` of src/main.py: position and velocity, plus the `_ix`, `_iy`
seed-grid bookkeeping fields. The seed fields hold small naturals (grid
planets get `x+MX`, `y+MY`; the suns get `0`). -/
structure State where
  x : ℝ
  y : ℝ
  vx : ℝ
  vy : ℝ
  ix : ℕ
  iy : ℕ

/-- Class `Derivative` of src/main.py: velocity and acceleration sample. -/
structure Derivative where
  dx : ℝ
  dy : ℝ
  dvx : ℝ
  dvy : ℝ

/-- Class `Planet` of src/main.py: state `_st`, mass `_m`, radius `_r` and
the `_merged` flag. -/
structure Planet where
  st : State
  m : ℝ
  r : ℝ
  merged : Bool

instance : Inhabited State := ⟨⟨0, 0, 0, 0, 0, 0⟩⟩

instance : Inhabited Derivative := ⟨⟨0, 0, 0, 0⟩⟩

instance : Inhabited Planet := ⟨⟨default, 0, 0, false⟩⟩

/-- Indices selected by the Python slice `planets[-2:]` on a list of length
`n`: all indices with fewer than two dropped in front removed, i.e. the last
two (or the whole index range when `n < 2`). -/
def lastTwoIdx (n : ℕ) : List ℕ := (List.range n).drop (n - 2)

/-- Squared distance between a planet and a candidate state, the `dsq` of
`Planet.acceleration`. -/
def sqDist (p : Planet) (state : State) : ℝ :=
  (p.st.x - state.x) * (p.st.x - state.x) + (p.st.y - state.y) * (p.st.y - state.y)

/-- One iteration of the loop body of `Planet.acceleration`
(src/main.py lines 141-152): skip `p is self` (index equality) and merged
planets, then accumulate `force*dx/dr` and `force*dy/dr` when `dr != 0`,
with the `dsq > 1e-10` singularity guard on `force`. -/
noncomputable def accStep (ps : List Planet) (i : ℕ) (self : Planet) (state : State)
    (acc : ℝ × ℝ) (j : ℕ) : ℝ × ℝ :=
  if j = i ∨ (ps.getD j default).merged = true then acc
  else
    let p := ps.getD j default
    let dx := p.st.x - state.x
    let dy := p.st.y - state.y
    let dsq := dx * dx + dy * dy
    let dr := Real.sqrt dsq
    if dr ≠ 0 then
      let force := if dsq > 1e-10 then GRAVITYSTRENGTH * self.m * p.m / dsq else 0
      (acc.1 + force * dx / dr, acc.2 + force * dy / dr)
    else acc

/-- Body of `Planet.acceleration` (src/main.py lines 137-153): fold the
accumulation step over `planets[-2:]`, starting from `(0, 0)`. The source
takes an `unused_t` argument that the body never reads; it is omitted here
and reattached in `Planet.acceleration`. -/
noncomputable def accelCore (ps : List Planet) (i : ℕ) (self : Planet) (state : State) : ℝ × ℝ :=
  (lastTwoIdx ps.length).foldl (accStep ps i self state) (0, 0)

/-- `Planet.acceleration(self, state, unused_t)` of src/main.py; `i` is the
index of `self` in `ps` (`p is self` becomes index equality). -/
noncomputable def Planet.acceleration (ps : List Planet) (i : ℕ) (self : Planet)
    (state : State) (t : ℝ) : ℝ × ℝ :=
  accelCore ps i self state

/-- `Planet.initialDerivative` of src/main.py lines 155-158. -/
noncomputable def Planet.initialDerivative (ps : List Planet) (i : ℕ) (self : Planet)
    (state : State) (t : ℝ) : Derivative :=
  let a := Planet.acceleration ps i self state t
  ⟨state.vx, state.vy, a.1, a.2⟩

/-- The advanced state built inside `Planet.nextDerivative` (src/main.py
lines 162-166). The source fills a scratch `State(0,0,0,0,None,None)` and
overwrites `x`, `y`, `vx`, `vy`; its seed fields are `None` and are never
read, so this model keeps the originals. -/
def nextState (s : State) (d : Derivative) (dt : ℝ) : State :=
  ⟨s.x + d.dx * dt, s.y + d.dy * dt, s.vx + d.dvx * dt, s.vy + d.dvy * dt, s.ix, s.iy⟩

/-- `Planet.nextDerivative` of src/main.py lines 160-168. -/
noncomputable def Planet.nextDerivative (ps : List Planet) (i : ℕ) (self : Planet)
    (initialState : State) (d : Derivative) (t dt : ℝ) : Derivative :=
  let st := nextState initialState d dt
  let a := Planet.acceleration ps i self st (t + dt)
  ⟨st.vx, st.vy, a.1, a.2⟩

/-- `Planet.updatePlanet` of src/main.py lines 170-183: the RK4 update of
the planet's own state; everything else about the planet is untouched. -/
noncomputable def Planet.updatePlanet (ps : List Planet) (i : ℕ) (self : Planet)
    (t dt : ℝ) : Planet :=
  let a := Planet.initialDerivative ps i self self.st t
  let b := Planet.nextDerivative ps i self self.st a t (dt * 0.5)
  let c := Planet.nextDerivative ps i self self.st b t (dt * 0.5)
  let d := Planet.nextDerivative ps i self self.st c t dt
  let dxdt := 1.0 / 6.0 * (a.dx + 2.0 * (b.dx + c.dx) + d.dx)
  let dydt := 1.0 / 6.0 * (a.dy + 2.0 * (b.dy + c.dy) + d.dy)
  let dvxdt := 1.0 / 6.0 * (a.dvx + 2.0 * (b.dvx + c.dvx) + d.dvx)
  let dvydt := 1.0 / 6.0 * (a.dvy + 2.0 * (b.dvy + c.dvy) + d.dvy)
  { self with
    st := { self.st with
              x := self.st.x + dxdt * dt
              y := self.st.y + dydt * dt
              vx := self.st.vx + dvxdt * dt
              vy := self.st.vy + dvydt * dt } }

/-- `Planet.setMassFromRadius` of src/main.py lines 185-187. -/
noncomputable def Planet.setMassFromRadius (p : Planet) : Planet :=
  { p with m := DENSITY * 4 * Real.pi * (p.r ^ (3 : ℝ)) / 3 }

/-- `Planet.setRadiusFromMass` of src/main.py lines 189-193. Note the
exponent in the source is the literal `0.3333`, not `1/3`. -/
noncomputable def Planet.setRadiusFromMass (p : Planet) : Planet :=
  { p with r := (3 * p.m / (DENSITY * 4 * Real.pi)) ^ ((0.3333 : ℝ)) }

/-- `planetsTouch` of src/main.py lines 195-200. -/
noncomputable def planetsTouch (p1 p2 : Planet) : Bool :=
  let dx := p1.st.x - p2.st.x
  let dy := p1.st.y - p2.st.y
  let dsq := dx * dx + dy * dy
  let dr := Real.sqrt dsq
  decide (dr ≤ p1.r + p2.r)

/-- `Planet.__init__` with an explicit state (the branch taken by
`initialize`, since `PLANETS != 1` and a state is always passed): radius
`1.5`, mass from radius, not merged. The `0` mass field is a placeholder
overwritten by `setMassFromRadius` (the source creates `_m` there). -/
noncomputable def mkPlanet (st : State) : Planet :=
  Planet.setMassFromRadius { st := st, m := 0, r := 1.5, merged := false }

/-- The state of the first sun in `initialize` (src/main.py line 221). -/
noncomputable def sunState : State := ⟨WIDTHD2, HEIGHTD2 - IDX, -IVX, 0, 0, 0⟩

/-- The first sun: `sun = Planet(State(...)); sun._m *= IMM;
sun.setRadiusFromMass()` (src/main.py lines 221-223). -/
noncomputable def sun : Planet :=
  Planet.setRadiusFromMass { mkPlanet sunState with m := (mkPlanet sunState).m * IMM }

/-- The state of the second sun in `initialize` (src/main.py line 226). -/
noncomputable def sun2State : State := ⟨WIDTHD2, HEIGHTD2 + IDX, IVX, 0, 0, 0⟩

/-- The second sun: `sun2._m *= IMM*0.5` then radius from mass
(src/main.py lines 226-228). -/
noncomputable def sun2 : Planet :=
  Planet.setRadiusFromMass { mkPlanet sun2State with m := (mkPlanet sun2State).m * (IMM * 0.5) }

/-- The grid-seeded planets of `initialize` (src/main.py lines 211-214),
reindexed by `xi = x + MX ∈ [0, 2*MX]`, `yi = y + MY ∈ [0, 2*MY]`. -/
noncomputable def gridPlanets : List Planet :=
  ((List.range (2 * MX + 1)).map (fun (xi : ℕ) =>
    (List.range (2 * MY + 1)).map (fun (yi : ℕ) =>
      mkPlanet ⟨WIDTHD2, HEIGHTD2, ((xi : ℝ) - (MX : ℝ)) * SCALE,
                ((yi : ℝ) - (MY : ℝ)) * SCALE, xi, yi⟩))).flatten

/-- The full planet list built by `initialize`: grid planets, then `sun`,
then `sun2` appended last. -/
noncomputable def initPlanets : List Planet := gridPlanets ++ [sun, sun2]

/-- The mutable globals touched by the merge loop of `main`: the planet
list, the trail grid `imgarr` (indexed `imgarr[iy][ix]`, holding the tick of
the last merge recorded in that cell), the colour grid `colarr`, and a ghost
log of resolved pairs (survivor index, merged index). -/
structure MergeSt where
  planets : List Planet
  imgarr : ℕ → ℕ → ℕ
  colarr : ℕ → ℕ → Option (ℕ × ℕ × ℕ)
  events : List (ℕ × ℕ)

/-- Point update of a 2D grid modelled as a function: `g[y][x] = v`. -/
def updGrid {α : Type} (g : ℕ → ℕ → α) (y x : ℕ) (v : α) : ℕ → ℕ → α :=
  fun b a => if b = y ∧ a = x then v else g b a

/-- One iteration of the inner merge loop of `main` (src/main.py lines
316-332), for the current outer binding `p1` at index `a` and the inner
element `p2` at index `j` (drawn from `planets[-2:]`).  Returns the updated
globals and the index `p1` is bound to afterwards: the source rebinds
`p1, p2 = p2, p1` when `p1._m < p2._m`, so after a resolution `p1` names the
survivor.  `planets[-1] in [p1, p2]` is the index test `n-1 = w ∨ n-1 = l`.
The momentum-conserving update (lines 328-332) is commented out in the
source, so the `if p1 is sun or p1 is sun2: continue` guard has no effect
and is not modelled. -/
noncomputable def resolvePair (tick : ℕ) (s : MergeSt) (a j : ℕ) : MergeSt × ℕ :=
  let ps := s.planets
  let n := ps.length
  if a = j ∨ (ps.getD j default).merged = true then (s, a)
  else if planetsTouch (ps.getD a default) (ps.getD j default) = true then
    let w := if (ps.getD a default).m < (ps.getD j default).m then j else a
    let l := if (ps.getD a default).m < (ps.getD j default).m then a else j
    let loser := ps.getD l default
    ({ planets := ps.set l { loser with merged := true }
       imgarr := updGrid s.imgarr loser.st.iy loser.st.ix tick
       colarr := updGrid s.colarr loser.st.iy loser.st.ix
         (some (if n - 1 = w ∨ n - 1 = l then (255, 0, 0) else (0, 0, 255)))
       events := s.events ++ [(w, l)] }, w)
  else (s, a)

/-- One iteration of the outer merge loop of `main` (src/main.py lines
313-332): skip an already-merged `p1`, otherwise run the inner loop over
`planets[-2:]`, threading the (possibly rebound) `p1` index. -/
noncomputable def mergeInner (tick : ℕ) (s : MergeSt) (i : ℕ) : MergeSt :=
  if (s.planets.getD i default).merged = true then s
  else
    ((lastTwoIdx s.planets.length).foldl
      (fun (acc : MergeSt × ℕ) j => resolvePair tick acc.1 acc.2 j) (s, i)).1

/-- The whole merge loop of `main` (src/main.py lines 313-332). -/
noncomputable def mergeLoop (tick : ℕ) (s : MergeSt) : MergeSt :=
  (List.range s.planets.length).foldl (mergeInner tick) s

/-- One iteration of the integration loop of `main` (src/main.py lines
304-309): skip merged planets (and the suns when `STATICSUN`; the suns are
the objects appended at indices `n-2` and `n-1`), otherwise update the
planet in place. -/
noncomputable def integrateStep (t dt : ℝ) (ps : List Planet) (i : ℕ) : List Planet :=
  if (ps.getD i default).merged = true
      ∨ (STATICSUN = true ∧ (i = ps.length - 2 ∨ i = ps.length - 1)) then ps
  else ps.set i (Planet.updatePlanet ps i (ps.getD i default) t dt)

/-- The whole integration loop of `main` (src/main.py lines 304-309),
updating the planets in place, in list order. -/
noncomputable def integrateLoop (t dt : ℝ) (ps : List Planet) : List Planet :=
  (List.range ps.length).foldl (integrateStep t dt) ps

/-- The planet list in effect when the integration loop reaches planet `i`:
this is the list all four force evaluations of planet `i`'s RK4 step read
from (the four evaluations happen before planet `i`'s own write-back). -/
noncomputable def arrayAtUpdate (t dt : ℝ) (ps : List Planet) (i : ℕ) : List Planet :=
  (List.range i).foldl (integrateStep t dt) ps

/-- One tick of `main`'s while loop restricted to simulation state:
integrate all planets, then run the merge loop at the current tick number. -/
noncomputable def tickStep (tick : ℕ) (t dt : ℝ) (s : MergeSt) : MergeSt :=
  mergeLoop tick { s with planets := integrateLoop t dt s.planets }

/-- `k` consecutive ticks starting at tick number `tick` (the simulation
time `t` is never read by the physics, it is passed as `tick * dt`). -/
noncomputable def stepN (dt : ℝ) : ℕ → ℕ → MergeSt → MergeSt
  | _, 0, s => s
  | tick, Nat.succ k, s => stepN dt (tick + 1) k (tickStep tick ((tick : ℝ) * dt) dt s)

/-- Maximum of a list of reals as `numpy.max` over a nonempty array:
for a nonempty list this is its greatest element. -/
noncomputable def maxList (l : List ℝ) : ℝ := l.foldr max (l.headD 0)

/-- Minimum of a list of reals as `numpy.min` over a nonempty array. -/
noncomputable def minList (l : List ℝ) : ℝ := l.foldr min (l.headD 0)

/-- `normalize` of src/main.py lines 247-248:
`(arr - arr.min()) * (1/(arr.max() - arr.min()) * 255)`, elementwise over
the whole 2D array.  The trailing `astype('uint8')` cast is a pixel-format
conversion and is not modelled; the claims are about the scaling itself. -/
noncomputable def normalize (a : List (List ℝ)) : List (List ℝ) :=
  a.map (List.map (fun v =>
    (v - minList a.flatten) * (1 / (maxList a.flatten - minList a.flatten) * 255)))

/-- The `log(1+arr[y][x])` comprehension of `lognormalize`
(src/main.py line 244). -/
noncomputable def logMap (a : List (List ℕ)) : List (List ℝ) :=
  a.map (List.map (fun (v : ℕ) => Real.log (1 + (v : ℝ))))

/-- `lognormalize` of src/main.py lines 243-245. -/
noncomputable def lognormalize (a : List (List ℕ)) : List (List ℝ) :=
  normalize (logMap a)

/-- The 2D array view of the trail grid, as built by the comprehensions of
`lognormalize`: `arr[y][x]` for `y < H`, `x < W`. -/
def imgGrid (f : ℕ → ℕ → ℕ) : List (List ℕ) :=
  (List.range H).map (fun y => (List.range W).map (fun x => f y x))

/-- The simulation state right after `initialize`: the planet list, an
all-zero `imgarr` (src/main.py line 216) and an all-`None` `colarr`. -/
noncomputable def initMergeSt : MergeSt :=
  { planets := initPlanets
    imgarr := fun _ _ => 0
    colarr := fun _ _ => none
    events := [] }

/-! ### Spec-side definitions, phrased from the specification's wording,
for comparison against the code-side definitions above. -/

/-- Spec-side: a derivative carries the velocity of the evaluated state and
the acceleration at the evaluated state's position. -/
noncomputable def specDerivative (A : State → ℝ × ℝ) (s : State) : Derivative :=
  ⟨s.vx, s.vy, (A s).1, (A s).2⟩

/-- Spec-side: `state + d*h`, acting on the four dynamical components. -/
def stateAdd (s : State) (d : Derivative) (h : ℝ) : State :=
  ⟨s.x + d.dx * h, s.y + d.dy * h, s.vx + d.dvx * h, s.vy + d.dvy * h, s.ix, s.iy⟩

/-- The acceleration field felt by one planet, as a function of its
candidate state. -/
noncomputable def specAccel (ps : List Planet) (i : ℕ) (self : Planet) (t : ℝ) :
    State → ℝ × ℝ :=
  fun s => Planet.acceleration ps i self s t

/-- Spec-side RK4 sample `a = derivative(state, t)`. -/
noncomputable def specA (ps : List Planet) (i : ℕ) (p : Planet) (t : ℝ) : Derivative :=
  specDerivative (specAccel ps i p t) p.st

/-- Spec-side RK4 sample `b = derivative(state + a*dt/2, t+dt/2)`. -/
noncomputable def specB (ps : List Planet) (i : ℕ) (p : Planet) (t dt : ℝ) : Derivative :=
  specDerivative (specAccel ps i p t) (stateAdd p.st (specA ps i p t) (dt / 2))

/-- Spec-side RK4 sample `c = derivative(state + b*dt/2, t+dt/2)`. -/
noncomputable def specC (ps : List Planet) (i : ℕ) (p : Planet) (t dt : ℝ) : Derivative :=
  specDerivative (specAccel ps i p t) (stateAdd p.st (specB ps i p t dt) (dt / 2))

/-- Spec-side RK4 sample `d = derivative(state + c*dt, t+dt)`. -/
noncomputable def specD (ps : List Planet) (i : ℕ) (p : Planet) (t dt : ℝ) : Derivative :=
  specDerivative (specAccel ps i p t) (stateAdd p.st (specC ps i p t dt) dt)

/-- Spec-side per-influencer contribution of the Force Model: the vector
`(force*dx/dr, force*dy/dr)` with `force = G*mSelf*mOther/dsq`, subject to
the `dr == 0` skip and the `dsq <= 1e-10` zero-force guard. -/
noncomputable def gravContrib (selfM : ℝ) (state : State) (p : Planet) : ℝ × ℝ :=
  let dx := p.st.x - state.x
  let dy := p.st.y - state.y
  let dsq := dx * dx + dy * dy
  let dr := Real.sqrt dsq
  if dr ≠ 0 then
    let force := if dsq > 1e-10 then GRAVITYSTRENGTH * selfM * p.m / dsq else 0
    (force * dx / dr, force * dy / dr)
  else (0, 0)

/-- The indices of the interacting subset that are not skipped: not the
body itself, not merged. -/
def actFilter (ps : List Planet) (i : ℕ) (L : List ℕ) : List ℕ :=
  L.filter (fun j => decide (¬(j = i ∨ (ps.getD j default).merged = true)))

/-- A state at the origin, at rest. -/
def stO : State := ⟨0, 0, 0, 0, 0, 0⟩

/-- A planet at the origin. -/
def pO : Planet := ⟨stO, 1, 1, false⟩

/-- A planet at distance 5 from the origin. -/
def pFar : Planet := ⟨⟨3, 4, 0, 0, 0, 0⟩, 1, 1, false⟩

/-- A heavier test planet. Both test planets sit at the same position, so
they certainly touch. -/
def pBig : Planet := ⟨⟨5, 7, 0, 0, 0, 0⟩, 2, 1, false⟩

/-- A lighter test planet at the same position, with seed cell (1, 2). -/
def pSmall : Planet := ⟨⟨5, 7, 0, 0, 1, 2⟩, 1, 1, false⟩

/-- A two-planet test state for the merge resolver. -/
def mergeTestSt : MergeSt := ⟨[pBig, pSmall], fun _ _ => 0, fun _ _ => none, []⟩

/-- The parts of a planet other than its merged flag. -/
def coreEq (p q : Planet) : Prop := q.st = p.st ∧ q.m = p.m ∧ q.r = p.r

/-- Frame relation between two planet lists: every planet keeps its state,
mass and radius, and merged flags change only from `false` to `true`. -/
def framePres (ps qs : List Planet) : Prop :=
  ∀ k : ℕ, coreEq (ps.getD k default) (qs.getD k default)
    ∧ ((qs.getD k default).merged = (ps.getD k default).merged
       ∨ (qs.getD k default).merged = true)

/-- A planet already marked merged, for the C7 witness. -/
def pMerged : Planet := ⟨⟨0, 0, 0, 0, 0, 0⟩, 1, 1, true⟩

/-- A one-planet state whose planet is already merged. -/
def mergedTestSt : MergeSt := ⟨[pMerged], fun _ _ => 0, fun _ _ => none, []⟩

/-- A state with no planets but a pre-existing event, for the C7 witness. -/
def emptyPlanetsSt : MergeSt := ⟨[], fun _ _ => 0, fun _ _ => none, [(5, 6)]⟩

/-- Pure drift: the state advanced by its own velocity for time `h`. -/
def driftState (s : State) (h : ℝ) : State :=
  ⟨s.x + s.vx * h, s.y + s.vy * h, s.vx, s.vy, s.ix, s.iy⟩

/-- A slowly moving planet at the origin, integrated first. -/
def pDrift : Planet := ⟨⟨0, 0, 1e-6, 0, 0, 0⟩, 1, 1, false⟩

/-- A resting planet at the origin, integrated second. -/
def pStill : Planet := ⟨⟨0, 0, 0, 0, 0, 0⟩, 1, 1, false⟩

/-- Two coincident planets; every candidate state of the first planet's
RK4 step stays within the `1e-10` squared-distance guard, so its update is
an exactly computable drift. -/
def psC9 : List Planet := [pDrift, pStill]

/-- A tiny concrete all-equal grid for the C10 witness. -/
def constGrid : List (List ℕ) := [[2, 2], [2, 2]]

/-! ### Helper lemmas -/

/-- The slice `planets[-2:]` of a collection with at least two elements is
exactly the last two indices. -/
theorem lastTwoIdx_eq {n : ℕ} (h : 2 ≤ n) : lastTwoIdx n = [n - 2, n - 1] := by
  obtain ⟨k, rfl⟩ : ∃ k, n = k + 2 := ⟨n - 2, by omega⟩
  have h1 : List.range' 0 (k + 2) = List.range' 0 k ++ List.range' (0 + 1 * k) 2 := by
    rw [Nat.add_comm k 2]; exact (List.range'_append 0 k 2 1).symm
  show (List.range (k + 2)).drop (k + 2 - 2) = _
  rw [List.range_eq_range', h1, show k + 2 - 2 = k from by omega,
    List.drop_left' (by simp)]
  simp [List.range']

/-- The source's `acceleration` ignores its time argument. -/
theorem acceleration_eq_core (ps : List Planet) (i : ℕ) (self : Planet)
    (state : State) (t : ℝ) : Planet.acceleration ps i self state t = accelCore ps i self state := rfl

theorem getD_set_self {α : Type} [Inhabited α] {l : List α} {i : ℕ} (v : α)
    (h : i < l.length) : (l.set i v).getD i default = v := by
  simp [List.getD_eq_getElem?_getD, List.getElem?_set_eq h]

theorem getD_set_ne {α : Type} [Inhabited α] {l : List α} {i k : ℕ} (v : α)
    (h : i ≠ k) : (l.set i v).getD k default = l.getD k default := by
  simp [List.getD_eq_getElem?_getD, List.getElem?_set_ne h]

/-- A fold whose step fixes the accumulator on every list element is the
identity. -/
theorem foldl_fixed {α β : Type} (f : α → β → α) :
    ∀ (L : List β) (acc : α), (∀ j ∈ L, ∀ a, f a j = a) → L.foldl f acc = acc := by
  intro L
  induction L with
  | nil => intro acc _; rfl
  | cons x L ih =>
    intro acc hfix
    rw [List.foldl_cons, hfix x (by simp), ih acc (fun j hj a => hfix j (by simp [hj]) a)]

/-- The accumulation step of `acceleration` adds exactly the spec-side
contribution, unless the element is skipped. -/
theorem accStep_eq (ps : List Planet) (i : ℕ) (self : Planet) (state : State)
    (acc : ℝ × ℝ) (j : ℕ) :
    accStep ps i self state acc j
      = if j = i ∨ (ps.getD j default).merged = true then acc
        else acc + gravContrib self.m state (ps.getD j default) := by
  simp only [accStep, gravContrib]
  by_cases hskip : j = i ∨ (ps.getD j default).merged = true
  · rw [if_pos hskip, if_pos hskip]
  · rw [if_neg hskip, if_neg hskip]
    split_ifs <;> simp [Prod.ext_iff]

/-- `nextDerivative` is the spec-side derivative taken at the advanced
state; the time arguments are irrelevant because `acceleration` ignores
time. -/
theorem nextDerivative_eq (ps : List Planet) (i : ℕ) (p : Planet) (s : State)
    (d : Derivative) (t t2 h : ℝ) :
    Planet.nextDerivative ps i p s d t h
      = specDerivative (specAccel ps i p t2) (nextState s d h) := rfl

/-- The half-step advanced state is the spec's `state + d*dt/2`. -/
theorem nextState_half (s : State) (d : Derivative) (dt : ℝ) :
    nextState s d (dt * 0.5) = stateAdd s d (dt / 2) := by
  simp only [nextState, stateAdd]
  congr 1 <;> ring

/-- C1: for every body and timestep `dt`, `updatePlanet` advances the
body's state `(x, y, vx, vy)` by the standard RK4 rule: with
`a = derivative(state)`, `b = derivative(state + a*dt/2)`,
`c = derivative(state + b*dt/2)`, `d = derivative(state + c*dt)`, where
each derivative carries the velocity of the evaluated state and the
acceleration at the evaluated state's position, the applied update is
`state += ((a + 2b + 2c + d)/6)*dt`. -/
theorem C1_updatePlanet_is_rk4 (ps : List Planet) (i : ℕ) (p : Planet) (t dt : ℝ) :
    (Planet.updatePlanet ps i p t dt).st.x
        = p.st.x + ((specA ps i p t).dx + 2 * (specB ps i p t dt).dx
            + 2 * (specC ps i p t dt).dx + (specD ps i p t dt).dx) / 6 * dt
  ∧ (Planet.updatePlanet ps i p t dt).st.y
        = p.st.y + ((specA ps i p t).dy + 2 * (specB ps i p t dt).dy
            + 2 * (specC ps i p t dt).dy + (specD ps i p t dt).dy) / 6 * dt
  ∧ (Planet.updatePlanet ps i p t dt).st.vx
        = p.st.vx + ((specA ps i p t).dvx + 2 * (specB ps i p t dt).dvx
            + 2 * (specC ps i p t dt).dvx + (specD ps i p t dt).dvx) / 6 * dt
  ∧ (Planet.updatePlanet ps i p t dt).st.vy
        = p.st.vy + ((specA ps i p t).dvy + 2 * (specB ps i p t dt).dvy
            + 2 * (specC ps i p t dt).dvy + (specD ps i p t dt).dvy) / 6 * dt := by
  have ha : Planet.initialDerivative ps i p p.st t = specA ps i p t := rfl
  have hb : Planet.nextDerivative ps i p p.st (specA ps i p t) t (dt * 0.5)
      = specB ps i p t dt := by
    rw [nextDerivative_eq ps i p p.st (specA ps i p t) t t (dt * 0.5), nextState_half]
    exact rfl
  have hc : Planet.nextDerivative ps i p p.st (specB ps i p t dt) t (dt * 0.5)
      = specC ps i p t dt := by
    rw [nextDerivative_eq ps i p p.st (specB ps i p t dt) t t (dt * 0.5), nextState_half]
    exact rfl
  have hd : Planet.nextDerivative ps i p p.st (specC ps i p t dt) t dt
      = specD ps i p t dt := rfl
  simp only [Planet.updatePlanet, ha, hb, hc, hd]
  refine ⟨by ring, by ring, by ring, by ring⟩

/-- Folding the acceleration step over an index list accumulates exactly
the sum of the non-skipped contributions. -/
theorem foldl_accStep_sum (ps : List Planet) (i : ℕ) (self : Planet) (state : State) :
    ∀ (L : List ℕ) (acc : ℝ × ℝ),
      L.foldl (accStep ps i self state) acc
        = acc + ((actFilter ps i L).map
            (fun j => gravContrib self.m state (ps.getD j default))).sum := by
  intro L
  induction L with
  | nil => intro acc; simp [actFilter]
  | cons x L ih =>
    intro acc
    rw [List.foldl_cons, accStep_eq, ih]
    by_cases hx : x = i ∨ (ps.getD x default).merged = true
    · rw [if_pos hx, show actFilter ps i (x :: L) = actFilter ps i L from by
        simp only [List.getD_eq_getElem?_getD] at hx
        simp [actFilter, List.filter_cons, List.getD_eq_getElem?_getD]
        tauto]
    · rw [if_neg hx, show actFilter ps i (x :: L) = x :: actFilter ps i L from by
        simp only [List.getD_eq_getElem?_getD, not_or, Bool.not_eq_true] at hx
        simp [actFilter, List.filter_cons, List.getD_eq_getElem?_getD, hx]]
      rw [List.map_cons, List.sum_cons, add_assoc]

/-- The acceleration step reads the planet list only through the element at
its own index. -/
theorem accStep_congr {ps ps2 : List Planet} {j : ℕ}
    (h : ps.getD j default = ps2.getD j default) (i : ℕ) (self : Planet)
    (state : State) (acc : ℝ × ℝ) :
    accStep ps i self state acc j = accStep ps2 i self state acc j := by
  unfold accStep
  rw [h]

theorem getD_append_right {α : Type} [Inhabited α] (l1 l2 : List α) (j : ℕ)
    (h : l1.length ≤ j) : (l1 ++ l2).getD j default = l2.getD (j - l1.length) default := by
  simp [List.getD_eq_getElem?_getD, List.getElem?_append_right h]

/-- C2: for every body and candidate state, the acceleration returned by
the Force Model is the sum, over only the last two elements of the body
collection (skipping the body itself and merged bodies), of the
contributions `(force*dx/dr, force*dy/dr)` with
`force = G*mSelf*mOther/dsq`; and bodies outside the last two elements
contribute nothing: replacing the entire prefix before the last two
elements by arbitrary other planets leaves every acceleration unchanged. -/
theorem C2_acceleration_last_two_sum :
    (∀ (ps : List Planet) (i : ℕ) (self : Planet) (state : State) (t : ℝ),
      Planet.acceleration ps i self state t
        = ((actFilter ps i (lastTwoIdx ps.length)).map
            (fun j => gravContrib self.m state (ps.getD j default))).sum)
  ∧ (∀ (qs qs2 ts : List Planet) (i : ℕ) (self : Planet) (state : State) (t : ℝ),
      qs.length = qs2.length → 2 ≤ ts.length →
      Planet.acceleration (qs ++ ts) i self state t
        = Planet.acceleration (qs2 ++ ts) i self state t) := by
  constructor
  · intro ps i self state t
    rw [acceleration_eq_core]
    unfold accelCore
    rw [foldl_accStep_sum]
    simp [Prod.ext_iff]
  · intro qs qs2 ts i self state t hlen hts
    have hL : (qs2 ++ ts).length = (qs ++ ts).length := by simp [hlen]
    have h2 : 2 ≤ (qs ++ ts).length := by simp; omega
    have hget : ∀ j, qs.length ≤ j →
        (qs ++ ts).getD j default = (qs2 ++ ts).getD j default := by
      intro j hj
      rw [getD_append_right qs ts j hj, getD_append_right qs2 ts j (hlen ▸ hj), hlen]
    rw [acceleration_eq_core, acceleration_eq_core]
    unfold accelCore
    rw [hL, lastTwoIdx_eq h2]
    have hlen1 : (qs ++ ts).length = qs.length + ts.length := by simp
    simp only [List.foldl_cons, List.foldl_nil]
    rw [accStep_congr (hget ((qs ++ ts).length - 2) (by omega)) i self state,
      accStep_congr (hget ((qs ++ ts).length - 1) (by omega)) i self state]

/-- A planet whose squared distance to the candidate state is inside the
`1e-10` guard contributes nothing. -/
theorem gravContrib_guard (selfM : ℝ) (state : State) (p : Planet)
    (h : sqDist p state ≤ 1e-10) : gravContrib selfM state p = (0, 0) := by
  unfold sqDist at h
  simp only [gravContrib]
  split_ifs with hdr hf
  · exact absurd hf (not_lt.mpr h)
  · simp
  · rfl

/-- A planet at distance exactly zero is skipped: it contributes nothing. -/
theorem gravContrib_zero_dist (selfM : ℝ) (state : State) (p : Planet)
    (h : Real.sqrt (sqDist p state) = 0) : gravContrib selfM state p = (0, 0) := by
  unfold sqDist at h
  simp only [gravContrib]
  rw [if_neg (not_not_intro h)]

/-- Outside both guards the contribution is the gravity formula, with both
divisors positive. -/
theorem gravContrib_formula (selfM : ℝ) (state : State) (p : Planet)
    (h : sqDist p state > 1e-10) :
    Real.sqrt (sqDist p state) > 0
  ∧ gravContrib selfM state p
      = (GRAVITYSTRENGTH * selfM * p.m / sqDist p state * (p.st.x - state.x)
            / Real.sqrt (sqDist p state),
         GRAVITYSTRENGTH * selfM * p.m / sqDist p state * (p.st.y - state.y)
            / Real.sqrt (sqDist p state)) := by
  have hpos : 0 < sqDist p state := lt_trans (by norm_num) h
  have hsq : 0 < Real.sqrt (sqDist p state) := Real.sqrt_pos.mpr hpos
  refine ⟨hsq, ?_⟩
  unfold sqDist at h hsq ⊢
  simp only [gravContrib]
  rw [if_pos (ne_of_gt hsq), if_pos h]

/-- If every influencer is inside the guard, the whole acceleration is
zero. -/
theorem accelCore_guard (ps : List Planet) (i : ℕ) (self : Planet) (state : State)
    (h : ∀ j ∈ lastTwoIdx ps.length, sqDist (ps.getD j default) state ≤ 1e-10) :
    accelCore ps i self state = (0, 0) := by
  unfold accelCore
  apply foldl_fixed
  intro j hj acc
  rw [accStep_eq]
  split_ifs with hskip
  · rfl
  · rw [gravContrib_guard _ _ _ (h j hj)]
    simp

/-- C3: for every pair of bodies at zero or near-zero separation, the
acceleration computation produces no undefined value: a pair at distance
exactly `0` is skipped (zero contribution), a pair with squared distance at
most `1e-10` contributes zero force, outside the guards the only divisors
`dsq` and `dr` are strictly positive, and a body all of whose influencers
are inside the guard gets acceleration `(0, 0)`. -/
theorem C3_singularity_guard :
    (∀ (selfM : ℝ) (state : State) (p : Planet),
      Real.sqrt (sqDist p state) = 0 → gravContrib selfM state p = (0, 0))
  ∧ (∀ (selfM : ℝ) (state : State) (p : Planet),
      sqDist p state ≤ 1e-10 → gravContrib selfM state p = (0, 0))
  ∧ (∀ (selfM : ℝ) (state : State) (p : Planet),
      sqDist p state > 1e-10 →
        Real.sqrt (sqDist p state) > 0
      ∧ gravContrib selfM state p
          = (GRAVITYSTRENGTH * selfM * p.m / sqDist p state * (p.st.x - state.x)
                / Real.sqrt (sqDist p state),
             GRAVITYSTRENGTH * selfM * p.m / sqDist p state * (p.st.y - state.y)
                / Real.sqrt (sqDist p state)))
  ∧ (∀ (ps : List Planet) (i : ℕ) (self : Planet) (state : State) (t : ℝ),
      (∀ j ∈ lastTwoIdx ps.length, sqDist (ps.getD j default) state ≤ 1e-10) →
      Planet.acceleration ps i self state t = (0, 0)) :=
  ⟨gravContrib_zero_dist, gravContrib_guard, gravContrib_formula,
    fun ps i self state _ h => accelCore_guard ps i self state h⟩

theorem C3_singularity_guard_witness :
    gravContrib 1 stO pO = (0, 0)
  ∧ gravContrib 2 stO pO = (0, 0)
  ∧ (Real.sqrt (sqDist pFar stO) > 0
     ∧ gravContrib 1 stO pFar
        = (GRAVITYSTRENGTH * 1 * pFar.m / sqDist pFar stO * (pFar.st.x - stO.x)
              / Real.sqrt (sqDist pFar stO),
           GRAVITYSTRENGTH * 1 * pFar.m / sqDist pFar stO * (pFar.st.y - stO.y)
              / Real.sqrt (sqDist pFar stO)))
  ∧ Planet.acceleration [pO, pO] 0 pO stO 1 = (0, 0) := by
  refine ⟨C3_singularity_guard.1 1 stO pO ?_, C3_singularity_guard.2.1 2 stO pO ?_,
    C3_singularity_guard.2.2.1 1 stO pFar ?_,
    C3_singularity_guard.2.2.2 [pO, pO] 0 pO stO 1 ?_⟩
  · rw [show sqDist pO stO = 0 from by norm_num [sqDist, pO, stO]]
    exact Real.sqrt_zero
  · norm_num [sqDist, pO, stO]
  · norm_num [sqDist, pFar, stO]
  · intro j hj
    rw [show lastTwoIdx ([pO, pO] : List Planet).length = [0, 1] from rfl] at hj
    simp only [List.mem_cons, List.not_mem_nil, or_false] at hj
    rcases hj with rfl | rfl <;> norm_num [sqDist, pO, stO, List.getD]

/-- C6: the radius–mass invariant `radius = cbrt(3*mass/(4*pi*density))`.
It holds exactly for the grid-seeded bodies (their radius `1.5` is set first
and their mass derived from it), but the suns' radius is recomputed by
`setRadiusFromMass`, whose source exponent is the literal `0.3333`, not
`1/3`; their radius is therefore strictly below the cube root required by
the invariant (by about 2.5e-4 in relative terms, far beyond floating-point
tolerance). -/
theorem C6_radius_mass_relation :
    (∀ st : State, (mkPlanet st).r
        = (3 * (mkPlanet st).m / (DENSITY * 4 * Real.pi)) ^ ((1 : ℝ) / 3))
  ∧ sun.r < (3 * sun.m / (DENSITY * 4 * Real.pi)) ^ ((1 : ℝ) / 3)
  ∧ sun2.r < (3 * sun2.m / (DENSITY * 4 * Real.pi)) ^ ((1 : ℝ) / 3) := by
  have hpi := Real.pi_ne_zero
  have hD : (DENSITY : ℝ) ≠ 0 := by norm_num [DENSITY]
  have hcube : ((1.5 : ℝ) ^ (3 : ℝ)) = 3.375 := by
    rw [show (3 : ℝ) = ((3 : ℕ) : ℝ) from by norm_num, Real.rpow_natCast]
    norm_num
  constructor
  · intro st
    have hm : (mkPlanet st).m = DENSITY * 4 * Real.pi * ((1.5 : ℝ) ^ (3 : ℝ)) / 3 := rfl
    have hr : (mkPlanet st).r = 1.5 := rfl
    have hbase : 3 * (mkPlanet st).m / (DENSITY * 4 * Real.pi) = 3.375 := by
      rw [hm, hcube]
      field_simp
      try ring
    rw [hr, hbase, show (3.375 : ℝ) = (1.5 : ℝ) ^ (3 : ℝ) from hcube.symm,
      ← Real.rpow_mul (by norm_num : (0 : ℝ) ≤ (1.5 : ℝ))]
    norm_num
  constructor
  · have hsr : sun.r = (3 * sun.m / (DENSITY * 4 * Real.pi)) ^ ((0.3333 : ℝ)) := rfl
    have hm : sun.m = DENSITY * 4 * Real.pi * ((1.5 : ℝ) ^ (3 : ℝ)) / 3 * IMM := rfl
    have hbase : 3 * sun.m / (DENSITY * 4 * Real.pi) = 1687.5 := by
      rw [hm, hcube]
      field_simp [IMM]
      ring
    rw [hsr, hbase]
    exact Real.rpow_lt_rpow_of_exponent_lt (by norm_num) (by norm_num)
  · have hsr : sun2.r = (3 * sun2.m / (DENSITY * 4 * Real.pi)) ^ ((0.3333 : ℝ)) := rfl
    have hm : sun2.m = DENSITY * 4 * Real.pi * ((1.5 : ℝ) ^ (3 : ℝ)) / 3 * (IMM * 0.5) := rfl
    have hbase : 3 * sun2.m / (DENSITY * 4 * Real.pi) = 843.75 := by
      rw [hm, hcube]
      field_simp [IMM]
      ring
    rw [hsr, hbase]
    exact Real.rpow_lt_rpow_of_exponent_lt (by norm_num) (by norm_num)

/-- C4: whenever the resolver finds two active bodies whose distance is at
most the sum of their radii, the body with strictly greater mass survives
(unchanged, not merged) and the other body's merged flag is set; on a mass
tie the second-compared operand (the one drawn from the last-two slice)
is the one marked merged, and the survivor index returned (the rebinding of
`p1`) is determined accordingly. -/
theorem C4_resolvePair_heavier_survives (tick : ℕ) (s : MergeSt) (a j : ℕ)
    (han : a < s.planets.length) (hjn : j < s.planets.length) (hne : a ≠ j)
    (hma : (s.planets.getD a default).merged = false)
    (hmj : (s.planets.getD j default).merged = false)
    (htouch : planetsTouch (s.planets.getD a default) (s.planets.getD j default) = true) :
    ((s.planets.getD j default).m < (s.planets.getD a default).m →
        ((resolvePair tick s a j).1.planets.getD j default).merged = true
      ∧ (resolvePair tick s a j).1.planets.getD a default = s.planets.getD a default
      ∧ (resolvePair tick s a j).2 = a)
  ∧ ((s.planets.getD a default).m < (s.planets.getD j default).m →
        ((resolvePair tick s a j).1.planets.getD a default).merged = true
      ∧ (resolvePair tick s a j).1.planets.getD j default = s.planets.getD j default
      ∧ (resolvePair tick s a j).2 = j)
  ∧ ((s.planets.getD a default).m = (s.planets.getD j default).m →
        ((resolvePair tick s a j).1.planets.getD j default).merged = true
      ∧ (resolvePair tick s a j).1.planets.getD a default = s.planets.getD a default
      ∧ (resolvePair tick s a j).2 = a) := by
  have hskip : ¬(a = j ∨ (s.planets.getD j default).merged = true) := by
    rintro (h | h)
    · exact hne h
    · rw [hmj] at h
      exact Bool.false_ne_true h
  simp only [resolvePair, if_neg hskip, if_pos htouch]
  refine ⟨?_, ?_, ?_⟩
  · intro hlt
    have hnlt : ¬((s.planets.getD a default).m < (s.planets.getD j default).m) :=
      not_lt.mpr (le_of_lt hlt)
    simp only [if_neg hnlt]
    exact ⟨by rw [getD_set_self _ hjn], by rw [getD_set_ne _ (Ne.symm hne)], trivial⟩
  · intro hlt
    simp only [if_pos hlt]
    exact ⟨by rw [getD_set_self _ han], by rw [getD_set_ne _ hne], trivial⟩
  · intro heq
    have hnlt : ¬((s.planets.getD a default).m < (s.planets.getD j default).m) :=
      not_lt.mpr (le_of_eq heq.symm)
    simp only [if_neg hnlt]
    exact ⟨by rw [getD_set_self _ hjn], by rw [getD_set_ne _ (Ne.symm hne)], trivial⟩

theorem touch_pBig_pSmall : planetsTouch pBig pSmall = true := by
  have h0 : (pBig.st.x - pSmall.st.x) * (pBig.st.x - pSmall.st.x)
      + (pBig.st.y - pSmall.st.y) * (pBig.st.y - pSmall.st.y) = 0 := by
    norm_num [pBig, pSmall]
  simp only [planetsTouch, h0, Real.sqrt_zero]
  rw [decide_eq_true_eq]
  norm_num [pBig, pSmall]

theorem C4_resolvePair_witness :
    ((resolvePair 3 mergeTestSt 0 1).1.planets.getD 1 default).merged = true
  ∧ (resolvePair 3 mergeTestSt 0 1).1.planets.getD 0 default
      = mergeTestSt.planets.getD 0 default
  ∧ (resolvePair 3 mergeTestSt 0 1).2 = 0 :=
  (C4_resolvePair_heavier_survives 3 mergeTestSt 0 1
    (by norm_num [mergeTestSt]) (by norm_num [mergeTestSt]) (by norm_num)
    rfl rfl touch_pBig_pSmall).1
    (by show pSmall.m < pBig.m; norm_num [pSmall, pBig])

theorem C2_acceleration_last_two_sum_witness :
    ((2 : ℕ) ≤ ([pBig, pSmall] : List Planet).length)
  ∧ Planet.acceleration ([pO] ++ [pBig, pSmall]) 0 pO stO 1
      = Planet.acceleration ([pFar] ++ [pBig, pSmall]) 0 pO stO 1 :=
  ⟨by norm_num,
   C2_acceleration_last_two_sum.2 [pO] [pFar] [pBig, pSmall] 0 pO stO 1 rfl (by norm_num)⟩

theorem framePres_refl (ps : List Planet) : framePres ps ps :=
  fun _ => ⟨⟨rfl, rfl, rfl⟩, Or.inl rfl⟩

theorem framePres_trans {ps qs rs : List Planet}
    (h1 : framePres ps qs) (h2 : framePres qs rs) : framePres ps rs := by
  intro k
  obtain ⟨⟨e1, e2, e3⟩, f1⟩ := h1 k
  obtain ⟨⟨g1, g2, g3⟩, f2⟩ := h2 k
  refine ⟨⟨g1.trans e1, g2.trans e2, g3.trans e3⟩, ?_⟩
  rcases f2 with h | h
  · rcases f1 with h2 | h2
    · exact Or.inl (h.trans h2)
    · exact Or.inr (h.trans h2)
  · exact Or.inr h

/-- Marking one planet as merged is a frame-preserving update. -/
theorem framePres_set_merged (ps : List Planet) (l : ℕ) :
    framePres ps (ps.set l { ps.getD l default with merged := true }) := by
  intro k
  by_cases hk : l = k
  · subst hk
    by_cases hlen : l < ps.length
    · rw [getD_set_self _ hlen]
      exact ⟨⟨rfl, rfl, rfl⟩, Or.inr rfl⟩
    · rw [List.set_eq_of_length_le (le_of_not_lt hlen)]
      exact ⟨⟨rfl, rfl, rfl⟩, Or.inl rfl⟩
  · rw [getD_set_ne _ hk]
    exact ⟨⟨rfl, rfl, rfl⟩, Or.inl rfl⟩

theorem resolvePair_frame (tick : ℕ) (s : MergeSt) (a j : ℕ) :
    framePres s.planets ((resolvePair tick s a j).1).planets := by
  simp only [resolvePair]
  split_ifs <;> dsimp only <;>
    first
      | exact framePres_refl _
      | exact framePres_set_merged _ _

theorem mergeInnerFold_frame (tick : ℕ) :
    ∀ (L : List ℕ) (acc : MergeSt × ℕ),
      framePres acc.1.planets
        ((L.foldl (fun (p : MergeSt × ℕ) j => resolvePair tick p.1 p.2 j) acc).1).planets := by
  intro L
  induction L with
  | nil => intro acc; exact framePres_refl _
  | cons x L ih =>
    intro acc
    rw [List.foldl_cons]
    exact framePres_trans (resolvePair_frame tick acc.1 acc.2 x)
      (ih (resolvePair tick acc.1 acc.2 x))

theorem mergeInner_frame (tick : ℕ) (s : MergeSt) (i : ℕ) :
    framePres s.planets (mergeInner tick s i).planets := by
  unfold mergeInner
  split_ifs with h
  · exact framePres_refl _
  · exact mergeInnerFold_frame tick (lastTwoIdx s.planets.length) (s, i)

theorem mergeFold_frame (tick : ℕ) :
    ∀ (L : List ℕ) (s : MergeSt),
      framePres s.planets (L.foldl (mergeInner tick) s).planets := by
  intro L
  induction L with
  | nil => intro s; exact framePres_refl _
  | cons x L ih =>
    intro s
    rw [List.foldl_cons]
    exact framePres_trans (mergeInner_frame tick s x) (ih (mergeInner tick s x))

theorem mergeLoop_frame (tick : ℕ) (s : MergeSt) :
    framePres s.planets (mergeLoop tick s).planets :=
  mergeFold_frame tick (List.range s.planets.length) s

/-- C5: with the momentum-conserving merge disabled (as in the reference),
the merge loop changes nothing about any planet except merged flags: every
planet's position, velocity, mass and radius are unchanged — in particular
every survivor's, sun or not — and merged flags change only from `false`
to `true`. -/
theorem C5_mergeLoop_frame_effect (tick : ℕ) (s : MergeSt) (k : ℕ) :
    ((mergeLoop tick s).planets.getD k default).st = (s.planets.getD k default).st
  ∧ ((mergeLoop tick s).planets.getD k default).m = (s.planets.getD k default).m
  ∧ ((mergeLoop tick s).planets.getD k default).r = (s.planets.getD k default).r
  ∧ (((mergeLoop tick s).planets.getD k default).merged = (s.planets.getD k default).merged
     ∨ ((mergeLoop tick s).planets.getD k default).merged = true) := by
  obtain ⟨⟨e1, e2, e3⟩, f⟩ := mergeLoop_frame tick s k
  exact ⟨e1, e2, e3, f⟩

/-- The integration loop's skip condition reduces to the merged check,
because `STATICSUN` is `false` in the source configuration. -/
theorem integrateStep_eq (t dt : ℝ) (ps : List Planet) (i : ℕ) :
    integrateStep t dt ps i
      = if (ps.getD i default).merged = true then ps
        else ps.set i (Planet.updatePlanet ps i (ps.getD i default) t dt) := by
  unfold integrateStep
  by_cases h : (ps.getD i default).merged = true
  · rw [if_pos (Or.inl h), if_pos h]
  · rw [if_neg ?_, if_neg h]
    rintro (hc | hc)
    · exact h hc
    · simp [STATICSUN] at hc

/-- One integration step never changes any merged flag. -/
theorem integrateStep_flags (t dt : ℝ) (ps : List Planet) (i k : ℕ) :
    ((integrateStep t dt ps i).getD k default).merged = (ps.getD k default).merged := by
  rw [integrateStep_eq]
  split_ifs with h
  · rfl
  · by_cases hk : i = k
    · subst hk
      by_cases hlen : i < ps.length
      · rw [getD_set_self _ hlen]
        rfl
      · rw [List.set_eq_of_length_le (le_of_not_lt hlen)]
    · rw [getD_set_ne _ hk]

/-- One integration step touches only its own index. -/
theorem integrateStep_untouched (t dt : ℝ) (ps : List Planet) {i k : ℕ} (hk : i ≠ k) :
    (integrateStep t dt ps i).getD k default = ps.getD k default := by
  rw [integrateStep_eq]
  split_ifs with h
  · rfl
  · rw [getD_set_ne _ hk]

theorem integrateFold_flags (t dt : ℝ) :
    ∀ (L : List ℕ) (ps : List Planet) (k : ℕ),
      ((L.foldl (integrateStep t dt) ps).getD k default).merged
        = (ps.getD k default).merged := by
  intro L
  induction L with
  | nil => intro ps k; rfl
  | cons x L ih =>
    intro ps k
    rw [List.foldl_cons, ih, integrateStep_flags]

theorem integrateFold_merged_untouched (t dt : ℝ) :
    ∀ (L : List ℕ) (ps : List Planet) (k : ℕ),
      (ps.getD k default).merged = true →
      (L.foldl (integrateStep t dt) ps).getD k default = ps.getD k default := by
  intro L
  induction L with
  | nil => intro ps k _; rfl
  | cons x L ih =>
    intro ps k h
    rw [List.foldl_cons]
    by_cases hx : x = k
    · subst hx
      rw [integrateStep_eq, if_pos h]
      exact ih ps x h
    · have h2 : ((integrateStep t dt ps x).getD k default).merged = true := by
        rw [integrateStep_flags]; exact h
      rw [ih (integrateStep t dt ps x) k h2, integrateStep_untouched t dt ps hx]

/-- The integration loop never changes merged flags. -/
theorem integrateLoop_flags (t dt : ℝ) (ps : List Planet) (k : ℕ) :
    ((integrateLoop t dt ps).getD k default).merged = (ps.getD k default).merged :=
  integrateFold_flags t dt (List.range ps.length) ps k

/-- A merged planet passes through the integration loop entirely
untouched. -/
theorem integrateLoop_merged_untouched (t dt : ℝ) (ps : List Planet) (k : ℕ)
    (h : (ps.getD k default).merged = true) :
    (integrateLoop t dt ps).getD k default = ps.getD k default :=
  integrateFold_merged_untouched t dt (List.range ps.length) ps k h

theorem framePres_nonmerged {ps qs : List Planet} (h : framePres ps qs) {k : ℕ}
    (hq : (qs.getD k default).merged = false) : (ps.getD k default).merged = false := by
  obtain ⟨_, f⟩ := h k
  rcases f with f | f
  · rw [← f]; exact hq
  · exact absurd (f.symm.trans hq) (by simp)

/-- A full tick keeps every merged flag that was already set. -/
theorem tickStep_merged_mono (tick : ℕ) (t dt : ℝ) (s : MergeSt) (i : ℕ)
    (h : (s.planets.getD i default).merged = true) :
    ((tickStep tick t dt s).planets.getD i default).merged = true := by
  unfold tickStep
  have h1 : ((integrateLoop t dt s.planets).getD i default).merged = true := by
    rw [integrateLoop_flags]; exact h
  obtain ⟨_, f⟩ := mergeLoop_frame tick { s with planets := integrateLoop t dt s.planets } i
  rcases f with f | f
  · rw [f]; exact h1
  · exact f

/-- The per-pair resolver: its returned `p1` binding is never a merged
planet, and each event it appends pairs two planets that are non-merged in
its input state. -/
theorem resolvePair_step_props (tick : ℕ) (s : MergeSt) (a j : ℕ)
    (hb : (s.planets.getD a default).merged = false) :
    ((resolvePair tick s a j).1.planets.getD (resolvePair tick s a j).2 default).merged = false
  ∧ (∀ e ∈ (resolvePair tick s a j).1.events,
      e ∈ s.events
      ∨ ((s.planets.getD e.1 default).merged = false
         ∧ (s.planets.getD e.2 default).merged = false)) := by
  by_cases h1 : a = j ∨ (s.planets.getD j default).merged = true
  · simp only [resolvePair, if_pos h1]
    exact ⟨hb, fun e he => Or.inl he⟩
  by_cases h2 : planetsTouch (s.planets.getD a default) (s.planets.getD j default) = true
  · have hane : a ≠ j := fun h => h1 (Or.inl h)
    have hmj : (s.planets.getD j default).merged = false := by
      rcases Bool.eq_false_or_eq_true ((s.planets.getD j default).merged) with hh | hh
      · exact absurd (Or.inr hh) h1
      · exact hh
    simp only [resolvePair, if_neg h1, if_pos h2]
    by_cases hlt : (s.planets.getD a default).m < (s.planets.getD j default).m
    · simp only [if_pos hlt]
      constructor
      · rw [getD_set_ne _ hane]
        exact hmj
      · intro e he
        rw [List.mem_append] at he
        rcases he with he | he
        · exact Or.inl he
        · rw [List.mem_singleton] at he
          subst he
          exact Or.inr ⟨hmj, hb⟩
    · simp only [if_neg hlt]
      constructor
      · rw [getD_set_ne _ (Ne.symm hane)]
        exact hb
      · intro e he
        rw [List.mem_append] at he
        rcases he with he | he
        · exact Or.inl he
        · rw [List.mem_singleton] at he
          subst he
          exact Or.inr ⟨hb, hmj⟩
  · simp only [resolvePair, if_neg h1, if_neg h2]
    exact ⟨hb, fun e he => Or.inl he⟩

theorem innerFold_events (tick : ℕ) :
    ∀ (L : List ℕ) (acc : MergeSt × ℕ),
      (acc.1.planets.getD acc.2 default).merged = false →
      ∀ e ∈ ((L.foldl (fun (p : MergeSt × ℕ) j => resolvePair tick p.1 p.2 j) acc).1).events,
        e ∈ acc.1.events
        ∨ ((acc.1.planets.getD e.1 default).merged = false
           ∧ (acc.1.planets.getD e.2 default).merged = false) := by
  intro L
  induction L with
  | nil => intro acc _ e he; exact Or.inl he
  | cons x L ih =>
    intro acc hb e he
    rw [List.foldl_cons] at he
    obtain ⟨hbind, hev⟩ := resolvePair_step_props tick acc.1 acc.2 x hb
    have hfr := resolvePair_frame tick acc.1 acc.2 x
    rcases ih (resolvePair tick acc.1 acc.2 x) hbind e he with h | ⟨ha, hb2⟩
    · exact hev e h
    · exact Or.inr ⟨framePres_nonmerged hfr ha, framePres_nonmerged hfr hb2⟩

theorem mergeInner_events (tick : ℕ) (s : MergeSt) (i : ℕ) :
    ∀ e ∈ (mergeInner tick s i).events,
      e ∈ s.events
      ∨ ((s.planets.getD e.1 default).merged = false
         ∧ (s.planets.getD e.2 default).merged = false) := by
  unfold mergeInner
  split_ifs with h
  · intro e he; exact Or.inl he
  · intro e he
    have hb : (s.planets.getD i default).merged = false := by
      rcases Bool.eq_false_or_eq_true ((s.planets.getD i default).merged) with hh | hh
      · exact absurd hh h
      · exact hh
    exact innerFold_events tick _ (s, i) hb e he

theorem mergeFold_events (tick : ℕ) :
    ∀ (L : List ℕ) (s : MergeSt),
      ∀ e ∈ (L.foldl (mergeInner tick) s).events,
        e ∈ s.events
        ∨ ((s.planets.getD e.1 default).merged = false
           ∧ (s.planets.getD e.2 default).merged = false) := by
  intro L
  induction L with
  | nil => intro s e he; exact Or.inl he
  | cons x L ih =>
    intro s e he
    rw [List.foldl_cons] at he
    have hfr := mergeInner_frame tick s x
    rcases ih (mergeInner tick s x) e he with h | ⟨ha, hb⟩
    · exact mergeInner_events tick s x e h
    · exact Or.inr ⟨framePres_nonmerged hfr ha, framePres_nonmerged hfr hb⟩

/-- C7: once a body's merged flag is set it stays set for all subsequent
ticks; from then on the body contributes nothing to any acceleration (its
accumulation step is the identity), the integration loop leaves it entirely
untouched, and the resolver never again selects it as a member of a
touching pair (every newly logged pair consists of two bodies that were
non-merged when the merge loop started). -/
theorem C7_merged_is_permanent :
    (∀ (dt : ℝ) (tick k : ℕ) (s : MergeSt) (i : ℕ),
        (s.planets.getD i default).merged = true →
        ((stepN dt tick k s).planets.getD i default).merged = true)
  ∧ (∀ (ps : List Planet) (i : ℕ) (self : Planet) (state : State) (acc : ℝ × ℝ) (j : ℕ),
        (ps.getD j default).merged = true → accStep ps i self state acc j = acc)
  ∧ (∀ (t dt : ℝ) (ps : List Planet) (k : ℕ),
        (ps.getD k default).merged = true →
        (integrateLoop t dt ps).getD k default = ps.getD k default)
  ∧ (∀ (tick : ℕ) (s : MergeSt), ∀ e ∈ (mergeLoop tick s).events,
        e ∈ s.events
        ∨ ((s.planets.getD e.1 default).merged = false
           ∧ (s.planets.getD e.2 default).merged = false)) := by
  refine ⟨?_, ?_, ?_, ?_⟩
  · intro dt tick k
    induction k generalizing tick with
    | zero => intro s i h; exact h
    | succ k ih =>
      intro s i h
      show ((stepN dt (tick + 1) k (tickStep tick ((tick : ℝ) * dt) dt s)).planets.getD
        i default).merged = true
      exact ih (tick + 1) _ i (tickStep_merged_mono tick ((tick : ℝ) * dt) dt s i h)
  · intro ps i self state acc j h
    unfold accStep
    rw [if_pos (Or.inr h)]
  · intro t dt ps k h
    exact integrateLoop_merged_untouched t dt ps k h
  · intro tick s
    exact mergeFold_events tick (List.range s.planets.length) s

theorem C7_merged_is_permanent_witness :
    ((stepN 1 0 2 mergedTestSt).planets.getD 0 default).merged = true
  ∧ accStep [pMerged] 1 pO stO (3, 4) 0 = (3, 4)
  ∧ (integrateLoop 0 1 [pMerged]).getD 0 default = ([pMerged] : List Planet).getD 0 default
  ∧ ((5, 6) ∈ emptyPlanetsSt.events
      ∨ ((emptyPlanetsSt.planets.getD 5 default).merged = false
         ∧ (emptyPlanetsSt.planets.getD 6 default).merged = false)) :=
  ⟨C7_merged_is_permanent.1 1 0 2 mergedTestSt 0 rfl,
   C7_merged_is_permanent.2.1 [pMerged] 1 pO stO (3, 4) 0 rfl,
   C7_merged_is_permanent.2.2.1 0 1 [pMerged] 0 rfl,
   C7_merged_is_permanent.2.2.2 7 emptyPlanetsSt (5, 6) (by simp [mergeLoop, emptyPlanetsSt])⟩

/-- C8 (amended): for every resolved merge, the losing body's trail-grid
cell receives the tick number, and it receives the sun-merge category
`(255,0,0)` if and only if the last-indexed body is ONE OF the two bodies
of the merge (survivor or loser) — the source tests
`planets[-1] in [p1, p2]` — not merely when the survivor is the
last-indexed sun. -/
theorem C8_trail_category (tick : ℕ) (s : MergeSt) (a j : ℕ)
    (hne : a ≠ j)
    (hmj : (s.planets.getD j default).merged = false)
    (htouch : planetsTouch (s.planets.getD a default) (s.planets.getD j default) = true) :
    (¬((s.planets.getD a default).m < (s.planets.getD j default).m) →
       (resolvePair tick s a j).1.imgarr (s.planets.getD j default).st.iy
          (s.planets.getD j default).st.ix = tick
     ∧ (resolvePair tick s a j).1.colarr (s.planets.getD j default).st.iy
          (s.planets.getD j default).st.ix
         = some (if s.planets.length - 1 = a ∨ s.planets.length - 1 = j
                 then (255, 0, 0) else (0, 0, 255)))
  ∧ ((s.planets.getD a default).m < (s.planets.getD j default).m →
       (resolvePair tick s a j).1.imgarr (s.planets.getD a default).st.iy
          (s.planets.getD a default).st.ix = tick
     ∧ (resolvePair tick s a j).1.colarr (s.planets.getD a default).st.iy
          (s.planets.getD a default).st.ix
         = some (if s.planets.length - 1 = j ∨ s.planets.length - 1 = a
                 then (255, 0, 0) else (0, 0, 255))) := by
  have hskip : ¬(a = j ∨ (s.planets.getD j default).merged = true) := by
    rintro (h | h)
    · exact hne h
    · rw [hmj] at h
      exact Bool.false_ne_true h
  constructor
  · intro hnlt
    simp only [resolvePair, if_neg hskip, if_pos htouch, if_neg hnlt]
    exact ⟨by simp [updGrid], by simp [updGrid]⟩
  · intro hlt
    simp only [resolvePair, if_neg hskip, if_pos htouch, if_pos hlt]
    exact ⟨by simp [updGrid], by simp [updGrid]⟩

theorem C8_trail_category_witness :
    ((resolvePair 5 mergeTestSt 0 1).1.imgarr (mergeTestSt.planets.getD 1 default).st.iy
        (mergeTestSt.planets.getD 1 default).st.ix = 5)
  ∧ ((resolvePair 5 mergeTestSt 0 1).1.colarr (mergeTestSt.planets.getD 1 default).st.iy
        (mergeTestSt.planets.getD 1 default).st.ix
      = some (if mergeTestSt.planets.length - 1 = 0 ∨ mergeTestSt.planets.length - 1 = 1
              then (255, 0, 0) else (0, 0, 255))) :=
  (C8_trail_category 5 mergeTestSt 0 1 (by norm_num) rfl touch_pBig_pSmall).1
    (by show ¬(pBig.m < pSmall.m); norm_num [pBig, pSmall])

/-- C8 counterexample: in a merge where the heavier first operand (index 0)
survives and the last-indexed body (index 1) is the loser, the source still
writes the sun-merge category `(255,0,0)`, although the survivor — the
returned `p1` binding, index 0 — is not the last-indexed body.  This
refutes the claim that the sun-merge category is written if and only if the
survivor is the last-indexed sun. -/
theorem C8_trail_category_counterexample :
    (resolvePair 5 mergeTestSt 0 1).1.colarr 2 1 = some (255, 0, 0)
  ∧ (resolvePair 5 mergeTestSt 0 1).2 = 0
  ∧ mergeTestSt.planets.length - 1 = 1 := by
  have hskip : ¬((0 : ℕ) = 1 ∨ (mergeTestSt.planets.getD 1 default).merged = true) := by
    rintro (h | h)
    · exact absurd h (by norm_num)
    · exact Bool.false_ne_true h
  have htouch : planetsTouch (mergeTestSt.planets.getD 0 default)
      (mergeTestSt.planets.getD 1 default) = true := touch_pBig_pSmall
  have hnlt : ¬((mergeTestSt.planets.getD 0 default).m
      < (mergeTestSt.planets.getD 1 default).m) := by
    show ¬(pBig.m < pSmall.m)
    norm_num [pBig, pSmall]
  simp only [resolvePair, if_neg hskip, if_pos htouch, if_neg hnlt]
  refine ⟨?_, trivial, rfl⟩
  show updGrid mergeTestSt.colarr (mergeTestSt.planets.getD 1 default).st.iy
      (mergeTestSt.planets.getD 1 default).st.ix
      (some (if mergeTestSt.planets.length - 1 = 0 ∨ mergeTestSt.planets.length - 1 = 1
             then (255, 0, 0) else (0, 0, 255))) 2 1 = some (255, 0, 0)
  norm_num [updGrid, mergeTestSt, pSmall, List.getD]

/-- If all four force evaluations of an RK4 step return zero acceleration,
the update is a pure drift by the body's own velocity. -/
theorem updatePlanet_drift (ps : List Planet) (i : ℕ) (self : Planet) (t dt : ℝ)
    (h0 : accelCore ps i self self.st = (0, 0))
    (h1 : accelCore ps i self (driftState self.st (dt * 0.5)) = (0, 0))
    (h2 : accelCore ps i self (driftState self.st dt) = (0, 0)) :
    Planet.updatePlanet ps i self t dt = { self with st := driftState self.st dt } := by
  have ha : Planet.initialDerivative ps i self self.st t
      = ⟨self.st.vx, self.st.vy, 0, 0⟩ := by
    unfold Planet.initialDerivative
    rw [acceleration_eq_core, h0]
  have hstB : nextState self.st ⟨self.st.vx, self.st.vy, 0, 0⟩ (dt * 0.5)
      = driftState self.st (dt * 0.5) := by
    unfold nextState driftState
    congr 1 <;> ring
  have hstD : nextState self.st ⟨self.st.vx, self.st.vy, 0, 0⟩ dt
      = driftState self.st dt := by
    unfold nextState driftState
    congr 1 <;> ring
  have hb : Planet.nextDerivative ps i self self.st ⟨self.st.vx, self.st.vy, 0, 0⟩
      t (dt * 0.5) = ⟨self.st.vx, self.st.vy, 0, 0⟩ := by
    simp only [Planet.nextDerivative]
    rw [acceleration_eq_core, hstB, h1]
    rfl
  have hd : Planet.nextDerivative ps i self self.st ⟨self.st.vx, self.st.vy, 0, 0⟩
      t dt = ⟨self.st.vx, self.st.vy, 0, 0⟩ := by
    simp only [Planet.nextDerivative]
    rw [acceleration_eq_core, hstD, h2]
    rfl
  simp only [Planet.updatePlanet, ha, hb, hd]
  unfold driftState
  congr 1
  congr 1 <;> ring

/-- The array the loop has built when it reaches planet `i` agrees with the
start-of-tick array at every index at or after `i`. -/
theorem arrayAtUpdate_agrees (t dt : ℝ) :
    ∀ (i : ℕ) (ps : List Planet) (k : ℕ), i ≤ k →
      (arrayAtUpdate t dt ps i).getD k default = ps.getD k default := by
  intro i
  induction i with
  | zero => intro ps k _; rfl
  | succ i ih =>
    intro ps k h
    unfold arrayAtUpdate at *
    rw [List.range_succ, List.foldl_append, List.foldl_cons, List.foldl_nil]
    rw [integrateStep_untouched _ _ _ (show i ≠ k from by omega)]
    exact ih ps k (by omega)

/-- C9 (amended): bodies are integrated in place, in list order, and the
four force evaluations of body `i` read the array built so far
(`arrayAtUpdate`): `arrayAtUpdate` agrees with the start-of-tick array at
every index at or after the body being integrated.  Since the influencer
subset is the last two indices, every body except the last reads only
start-of-tick influencer positions; the last body reads the
already-updated position of the body before it. -/
theorem C9_integration_reads_prev :
    (∀ (t dt : ℝ) (ps : List Planet) (i : ℕ),
        arrayAtUpdate t dt ps (i + 1) = integrateStep t dt (arrayAtUpdate t dt ps i) i
      ∧ integrateLoop t dt ps = arrayAtUpdate t dt ps ps.length)
  ∧ (∀ (t dt : ℝ) (ps : List Planet) (i k : ℕ), i ≤ k →
      (arrayAtUpdate t dt ps i).getD k default = ps.getD k default) := by
  constructor
  · intro t dt ps i
    constructor
    · unfold arrayAtUpdate
      rw [List.range_succ, List.foldl_append, List.foldl_cons, List.foldl_nil]
    · rfl
  · intro t dt ps i k h
    exact arrayAtUpdate_agrees t dt i ps k h

theorem C9_integration_reads_prev_witness :
    (arrayAtUpdate 1 1 [pO] 1 = integrateStep 1 1 (arrayAtUpdate 1 1 [pO] 0) 0
     ∧ integrateLoop 1 1 [pO] = arrayAtUpdate 1 1 [pO] ([pO] : List Planet).length)
  ∧ (arrayAtUpdate 1 1 [pO] 0).getD 0 default = ([pO] : List Planet).getD 0 default :=
  ⟨C9_integration_reads_prev.1 1 1 [pO] 0,
   C9_integration_reads_prev.2 1 1 [pO] 0 0 (by omega)⟩

/-- C9 counterexample: planet 0 is an influencer (it is in the last-two
slice) of planet 1, yet when planet 1 is integrated, the array it reads
holds planet 0's already-updated position `1e-6`, not its start-of-tick
position `0`.  This refutes the claim that every body's force evaluations
see only previous-tick influencer positions. -/
theorem C9_integration_reads_prev_counterexample :
    0 ∈ lastTwoIdx psC9.length
  ∧ ((arrayAtUpdate 1 1 psC9 1).getD 0 default).st.x ≠ (psC9.getD 0 default).st.x := by
  constructor
  · decide
  · have hstep : arrayAtUpdate 1 1 psC9 1 = integrateStep 1 1 psC9 0 := rfl
    have hm : (psC9.getD 0 default).merged = false := rfl
    have hguard : ∀ st : State,
        sqDist (psC9.getD 0 default) st ≤ 1e-10 →
        sqDist (psC9.getD 1 default) st ≤ 1e-10 →
        accelCore psC9 0 (psC9.getD 0 default) st = (0, 0) := by
      intro st hg0 hg1
      apply accelCore_guard
      intro j hj
      rw [show lastTwoIdx psC9.length = [0, 1] from rfl] at hj
      simp only [List.mem_cons, List.not_mem_nil, or_false] at hj
      rcases hj with rfl | rfl
      · exact hg0
      · exact hg1
    have hupd : Planet.updatePlanet psC9 0 (psC9.getD 0 default) 1 1
        = { psC9.getD 0 default with st := driftState (psC9.getD 0 default).st 1 } := by
      apply updatePlanet_drift
      · apply hguard <;> norm_num [sqDist, psC9, pDrift, pStill, List.getD]
      · apply hguard <;> norm_num [sqDist, psC9, pDrift, pStill, driftState, List.getD]
      · apply hguard <;> norm_num [sqDist, psC9, pDrift, pStill, driftState, List.getD]
    rw [hstep, integrateStep_eq, if_neg (by rw [hm]; exact Bool.false_ne_true), hupd,
      getD_set_self _ (by norm_num [psC9])]
    show (driftState (psC9.getD 0 default).st 1).x ≠ (psC9.getD 0 default).st.x
    norm_num [driftState, psC9, pDrift, List.getD]

theorem foldr_max_const (c : ℝ) :
    ∀ (xs : List ℝ) (init : ℝ), (∀ v ∈ xs, v = c) → init = c → xs.foldr max init = c := by
  intro xs
  induction xs with
  | nil => intro init _ hi; exact hi
  | cons y ys ih =>
    intro init hall hi
    rw [List.foldr_cons, ih init (fun v hv => hall v (by simp [hv])) hi,
      hall y (by simp), max_self]

theorem foldr_min_const (c : ℝ) :
    ∀ (xs : List ℝ) (init : ℝ), (∀ v ∈ xs, v = c) → init = c → xs.foldr min init = c := by
  intro xs
  induction xs with
  | nil => intro init _ hi; exact hi
  | cons y ys ih =>
    intro init hall hi
    rw [List.foldr_cons, ih init (fun v hv => hall v (by simp [hv])) hi,
      hall y (by simp), min_self]

theorem maxList_const (l : List ℝ) (c : ℝ) (h : ∀ v ∈ l, v = c) (hne : l ≠ []) :
    maxList l = c := by
  obtain ⟨x, xs, rfl⟩ := List.exists_cons_of_ne_nil hne
  unfold maxList
  exact foldr_max_const c (x :: xs) _ h (h x (by simp))

theorem minList_const (l : List ℝ) (c : ℝ) (h : ∀ v ∈ l, v = c) (hne : l ≠ []) :
    minList l = c := by
  obtain ⟨x, xs, rfl⟩ := List.exists_cons_of_ne_nil hne
  unfold minList
  exact foldr_min_const c (x :: xs) _ h (h x (by simp))

/-- Every cell of the log image of an all-`c` grid equals `log(1+c)`. -/
theorem logMap_const (a : List (List ℕ)) (c : ℕ) (h : ∀ row ∈ a, ∀ v ∈ row, v = c) :
    ∀ v ∈ (logMap a).flatten, v = Real.log (1 + (c : ℝ)) := by
  intro v hv
  obtain ⟨r, hr, hvr⟩ := List.mem_flatten.mp hv
  obtain ⟨row, hrow, rfl⟩ := List.mem_map.mp hr
  obtain ⟨u, hu, rfl⟩ := List.mem_map.mp hvr
  rw [h row hrow u hu]

theorem logMap_flatten_ne_nil (a : List (List ℕ)) (hne : a.flatten ≠ []) :
    (logMap a).flatten ≠ [] := by
  unfold logMap
  rw [← List.map_flatten]
  intro hcon
  exact hne (List.map_eq_nil.mp hcon)

/-- C10: for every trail grid in which all cells hold the same value — in
particular the all-zero grid present on every tick before the first merge
is recorded — the per-tick log-normalization divides by `max - min = 0`:
the divisor used by `normalize` is zero, and (in the real-number model,
where `x/0 = 0`) every output cell collapses to `0`, so the output is not a
meaningfully rescaled 0..255 intensity array. -/
theorem C10_lognormalize_constant_grid :
    (∀ (a : List (List ℕ)) (c : ℕ), a.flatten ≠ [] →
      (∀ row ∈ a, ∀ v ∈ row, v = c) →
        maxList (logMap a).flatten - minList (logMap a).flatten = 0
      ∧ ∀ row ∈ lognormalize a, ∀ v ∈ row, v = 0)
  ∧ (∀ row ∈ imgGrid initMergeSt.imgarr, ∀ v ∈ row, v = 0)
  ∧ (imgGrid initMergeSt.imgarr).flatten ≠ [] := by
  refine ⟨?_, ?_, ?_⟩
  · intro a c hne hconst
    have hcell := logMap_const a c hconst
    have hfl := logMap_flatten_ne_nil a hne
    have hmax := maxList_const _ _ hcell hfl
    have hmin := minList_const _ _ hcell hfl
    constructor
    · rw [hmax, hmin, sub_self]
    · intro row hrow v hv
      unfold lognormalize normalize at hrow
      obtain ⟨row0, hrow0, rfl⟩ := List.mem_map.mp hrow
      obtain ⟨u, hu, rfl⟩ := List.mem_map.mp hv
      have hu2 : u = Real.log (1 + (c : ℝ)) := by
        apply hcell
        exact List.mem_flatten.mpr ⟨row0, hrow0, hu⟩
      rw [hu2, hmin, sub_self, zero_mul]
  · intro row hrow v hv
    unfold imgGrid at hrow
    obtain ⟨y, _, rfl⟩ := List.mem_map.mp hrow
    obtain ⟨x, _, rfl⟩ := List.mem_map.mp hv
    rfl
  · have h0 : (0 : ℕ) ∈ (imgGrid initMergeSt.imgarr).flatten := by
      apply List.mem_flatten.mpr
      refine ⟨(List.range W).map (fun x => initMergeSt.imgarr 0 x), ?_, ?_⟩
      · unfold imgGrid
        exact List.mem_map.mpr ⟨0, by simp [H], rfl⟩
      · exact List.mem_map.mpr ⟨0, by simp [W], rfl⟩
    exact List.ne_nil_of_mem h0

theorem C10_lognormalize_constant_grid_witness :
    maxList (logMap constGrid).flatten - minList (logMap constGrid).flatten = 0
  ∧ ∀ row ∈ lognormalize constGrid, ∀ v ∈ row, v = 0 :=
  C10_lognormalize_constant_grid.1 constGrid 2 (by decide)
    (by decide)

end Orbitmap
